import Mathlib

/-
Verification of the NaCl ARM SFI validator specification against the
repository.  The repository ships the declarations of the baseline
instruction classes (baseline_classes.h), the trie memory-management
header (arm_categorize_memman.h) and the validator test fixture
(testdata/test_stores.S); the validator pass itself (decoder driver,
bundle checker and masking-pattern checker) is not among the source
files, so those components are modelled from the specification, and the
test fixture is embedded literally to exercise the model on the
scenarios the repository tests.
-/

set_option maxRecDepth 4096

/-- Modelled from the spec: the closed safety-category set returned by the
classifier (section 4.2); the validator pass that consumes it is missing
from the sources. -/
inductive SafetyCat where
  | Safe
  | ConditionallySafe
  | Deprecated
  | Undefined
  | Unpredictable
  | Forbidden
deriving DecidableEq

/-- Modelled from the spec: the error taxonomy of section 7; the driver
that records these is missing from the sources. -/
inductive ViolationKind where
  | InvalidEncoding
  | TruncatedInstruction
  | BundleCrossing
  | TrailingPartialInstruction
  | ForbiddenInstruction
  | UndefinedInstruction
  | UnpredictableInstruction
  | UnsafeMemoryReference
  | UnsafeControlTransfer
deriving DecidableEq

/-- Modelled from the spec: a violation record carries offset, kind and a
human-readable detail (section 3). -/
structure Violation where
  offset : Nat
  kind : ViolationKind
  detail : String
deriving DecidableEq

/-- Smart constructor for violations; the detail text is not specified, so
the model leaves it empty. -/
def viol (off : Nat) (k : ViolationKind) : Violation :=
  { offset := off, kind := k, detail := "" }

/-- Memory addressing forms distinguished by the store tests: constant
offset or immediate post-index, register post-index, register pre-index.
These mirror the addressing forms of LoadStore3RegisterImm5Op and
LoadStore2RegisterImm8Op in baseline_classes.h. -/
inductive MemForm where
  | immOff (imm : Nat)
  | regPost (rm : Fin 16)
  | regPre (rm : Fin 16)
deriving DecidableEq

/-- Modelled from the spec: the instruction descriptor of section 3 (byte
offset, encoded length, safety category, registers written, masking flag
with confined register and mask constant, memory-base use, indirect
branch target); the decoder and classifier that build it are missing
from the sources. -/
structure Instr where
  offset : Nat
  length : Nat
  cat : SafetyCat
  defs : List (Fin 16)
  maskOp : Option (Fin 16 × Nat)
  mem : Option (Fin 16 × MemForm)
  branch : Option (Fin 16)
deriving DecidableEq

/-- Modelled from the spec: the per-register, per-bundle confinement state
machine of section 3; the masking-pattern checker holding it is missing
from the sources. -/
inductive Confinement where
  | Unmasked
  | ConfinedPendingUse
deriving DecidableEq

/-- Confinement state of all sixteen general-purpose registers. -/
abbrev CState := Fin 16 → Confinement

/-- Modelled from the spec: all registers are Unmasked at bundle entry. -/
def initState : CState := fun _ => .Unmasked

/-- Pointwise state update. -/
def setConf (s : CState) (r : Fin 16) (c : Confinement) : CState :=
  fun x => if x = r then c else s x

/-- The dedicated stack-pointer-equivalent register (ARM sp, r13), exempt
from masking when used with constant offsets. -/
def spReg : Fin 16 := 13

/-- Modelled from the spec: treatment of a memory access through base b.
A constant-offset access through the stack-pointer-equivalent register is
always accepted; otherwise the base must be ConfinedPendingUse, and the
use consumes the confinement.  A register pre-index access is never
sanctioned by confinement (the effective address adds an unconfined
register), mirroring the ERROR line of bundle6 in test_stores.S. -/
def useMem (s : CState) (off : Nat) (b : Fin 16) (f : MemForm) :
    List Violation × CState :=
  match f with
  | .immOff _ =>
      if b = spReg then ([], s)
      else
        match s b with
        | .ConfinedPendingUse => ([], setConf s b .Unmasked)
        | .Unmasked => ([viol off .UnsafeMemoryReference], s)
  | .regPost _ =>
      match s b with
      | .ConfinedPendingUse => ([], setConf s b .Unmasked)
      | .Unmasked => ([viol off .UnsafeMemoryReference], s)
  | .regPre _ => ([viol off .UnsafeMemoryReference], s)

/-- Modelled from the spec: an indirect control transfer through register
r is accepted exactly when r is ConfinedPendingUse, and consumes the
confinement; otherwise it is an UnsafeControlTransfer. -/
def useBranchTarget (s : CState) (off : Nat) (r : Fin 16) :
    List Violation × CState :=
  match s r with
  | .ConfinedPendingUse => ([], setConf s r .Unmasked)
  | .Unmasked => ([viol off .UnsafeControlTransfer], s)

/-- Memory-use component of one checker step. -/
def memUse (s : CState) (i : Instr) : List Violation × CState :=
  match i.mem with
  | some (b, f) => useMem s i.offset b f
  | none => ([], s)

/-- Branch-use component of one checker step. -/
def branchUse (s : CState) (i : Instr) : List Violation × CState :=
  match i.branch with
  | some r => useBranchTarget s i.offset r
  | none => ([], s)

/-- Modelled from the spec: every register an instruction writes returns
to Unmasked, except that a masking instruction applying exactly the
sandbox mask constant mc moves its destination to ConfinedPendingUse. -/
def applyWrites (mc : Nat) (s : CState) (i : Instr) : CState :=
  fun r =>
    if i.maskOp = some (r, mc) then .ConfinedPendingUse
    else if r ∈ i.defs then .Unmasked
    else s r

/-- Modelled from the spec: one step of the masking-pattern checker.
Restricted uses are judged against the state before the instruction;
then the instruction's writes (and its own masking effect) are applied. -/
def stepInstr (mc : Nat) (s : CState) (i : Instr) : List Violation × CState :=
  ((memUse s i).1 ++ (branchUse (memUse s i).2 i).1,
   applyWrites mc (branchUse (memUse s i).2 i).2 i)

/-- Modelled from the spec: the masking-pattern checker walking the
instructions of a single bundle in order from a given state. -/
def runBundleFrom (mc : Nat) (s : CState) : List Instr → List Violation × CState
  | [] => ([], s)
  | i :: rest =>
      ((stepInstr mc s i).1 ++ (runBundleFrom mc (stepInstr mc (s) i).2 rest).1,
       (runBundleFrom mc (stepInstr mc s i).2 rest).2)

/-- Modelled from the spec: the masking-pattern checker over a whole
region.  cur is the bundle index of the previously processed
instruction; whenever the next instruction falls in a different bundle
(offset divided by the bundle size changes) the confinement state is
reset to initState, so confinement never crosses a bundle boundary. -/
def maskWalk (mc bs : Nat) (cur : Nat) (s : CState) :
    List Instr → List Violation × CState
  | [] => ([], s)
  | i :: rest =>
      ((stepInstr mc (if i.offset / bs = cur then s else initState) i).1 ++
        (maskWalk mc bs (i.offset / bs)
          (stepInstr mc (if i.offset / bs = cur then s else initState) i).2 rest).1,
       (maskWalk mc bs (i.offset / bs)
          (stepInstr mc (if i.offset / bs = cur then s else initState) i).2 rest).2)

/-- Modelled from the spec: masking-pattern check of an ordered region,
starting in bundle 0 with every register Unmasked. -/
def maskCheckRegion (mc bs : Nat) (insts : List Instr) : List Violation :=
  (maskWalk mc bs 0 initState insts).1

/-- Modelled from the spec: the bundle checker emits BundleCrossing for
every instruction whose span fails offset mod bundle size plus length at
most bundle size (section 4.3). -/
def bundleCheck (bs : Nat) (insts : List Instr) : List Violation :=
  insts.foldl
    (fun acc i =>
      if i.offset % bs + i.length ≤ bs then acc
      else acc ++ [viol i.offset .BundleCrossing]) []

/-- Modelled from the spec: Forbidden, Undefined and Unpredictable
categories are always validation failures regardless of context
(section 4.2). -/
def safetyCheck (insts : List Instr) : List Violation :=
  insts.foldl
    (fun acc i =>
      match i.cat with
      | .Forbidden => acc ++ [viol i.offset .ForbiddenInstruction]
      | .Undefined => acc ++ [viol i.offset .UndefinedInstruction]
      | .Unpredictable => acc ++ [viol i.offset .UnpredictableInstruction]
      | _ => acc) []

/-- The sandbox mask constant of the ARM target, the literal of
test_stores.S: stores are restricted to the low 1GB. -/
def MASK : Nat := 0xc0000000

/- Register abbreviations used by the embedded test fixture. -/

def r0 : Fin 16 := 0
def r1 : Fin 16 := 1
def r2 : Fin 16 := 2
def r3 : Fin 16 := 3

/-- A bit-clear instruction bic rd, rn, #imm: writes rd and records the
masking flag with the applied constant (MaskedBinary2RegisterImmediateOp
in baseline_classes.h). -/
def bicI (rd : Fin 16) (imm off : Nat) : Instr :=
  { offset := off, length := 4, cat := .ConditionallySafe, defs := [rd],
    maskOp := some (rd, imm), mem := none, branch := none }

/-- A plain store str rt, [rn, #imm] with no writeback. -/
def strImmI (base : Fin 16) (imm off : Nat) : Instr :=
  { offset := off, length := 4, cat := .ConditionallySafe, defs := [],
    maskOp := none, mem := some (base, .immOff imm), branch := none }

/-- An immediate post-index store str rt, [rn], #imm: writes back rn. -/
def strPostImmI (base : Fin 16) (imm off : Nat) : Instr :=
  { offset := off, length := 4, cat := .ConditionallySafe, defs := [base],
    maskOp := none, mem := some (base, .immOff imm), branch := none }

/-- A register post-index store str rt, [rn], rm: writes back rn
(LoadStore3RegisterImm5Op with P equal 0). -/
def strPostRegI (base rm : Fin 16) (off : Nat) : Instr :=
  { offset := off, length := 4, cat := .ConditionallySafe, defs := [base],
    maskOp := none, mem := some (base, .regPost rm), branch := none }

/-- A register pre-index store str rt, [rn, rm] without writeback
(LoadStore3RegisterImm5Op with P equal 1, W equal 0). -/
def strPreRegI (base rm : Fin 16) (off : Nat) : Instr :=
  { offset := off, length := 4, cat := .ConditionallySafe, defs := [],
    maskOp := none, mem := some (base, .regPre rm), branch := none }

/-- A store-exclusive strex rd, rt, [rn]: writes the status register rd,
base rn (StoreExclusive3RegisterOp in baseline_classes.h). -/
def strexI (rd base : Fin 16) (off : Nat) : Instr :=
  { offset := off, length := 4, cat := .ConditionallySafe, defs := [rd],
    maskOp := none, mem := some (base, .immOff 0), branch := none }

/-- A plain register move mov rd, rm: writes rd, no masking flag. -/
def movI (rd : Fin 16) (off : Nat) : Instr :=
  { offset := off, length := 4, cat := .Safe, defs := [rd],
    maskOp := none, mem := none, branch := none }

/-- A nop. -/
def nopI (off : Nat) : Instr :=
  { offset := off, length := 4, cat := .Safe, defs := [],
    maskOp := none, mem := none, branch := none }

/-- The instruction sequence of testdata/test_stores.S, at its source
offsets (bundle size 16, one bundle per label). -/
def testStores : List Instr :=
  [ bicI r1 MASK 0, strImmI r1 0 4, bicI r1 MASK 8, strImmI r1 0 12,
    movI r1 16, strImmI r1 0 20, bicI r1 0 24, strImmI r1 0 28,
    nopI 32, nopI 36, nopI 40, bicI r1 MASK 44,
    strImmI r1 0 48, nopI 52, bicI r2 MASK 56, strexI r0 r2 60,
    bicI r2 0 64, strexI r0 r2 68, nopI 72, nopI 76,
    bicI r0 MASK 80, strPostRegI r0 r2 84, nopI 88, strPostRegI r0 r2 92,
    strPostImmI spReg 1024 96, strPostRegI spReg r2 100, bicI r0 MASK 104,
    strPreRegI r0 r2 108 ]

/-- The model reproduces the verdicts annotated in
testdata/test_stores.S: exactly the seven lines marked ERROR are
flagged, each as an unsafe memory reference. -/
theorem maskCheckRegion_testStores :
    maskCheckRegion MASK 16 testStores =
      [ viol 20 .UnsafeMemoryReference, viol 28 .UnsafeMemoryReference,
        viol 48 .UnsafeMemoryReference, viol 68 .UnsafeMemoryReference,
        viol 92 .UnsafeMemoryReference, viol 100 .UnsafeMemoryReference,
        viol 108 .UnsafeMemoryReference ] := by decide

/- Decoder and driver, modelled from the spec. -/

/-- Modelled from the spec: the little-endian 32-bit word starting at
byte offset off of the buffer; only the four bytes of the instruction
span are consulted. -/
def word32At (buf : List Nat) (off : Nat) : Nat :=
  match (buf.drop off).take 4 with
  | [b0, b1, b2, b3] => b0 + 256 * b1 + 65536 * b2 + 16777216 * b3
  | _ => 0

/-- Modelled from the spec: the ARM decoder at a byte offset.  It
consumes exactly four bytes on success and must not read past the
buffer end: a decode needing bytes past the end is TruncatedInstruction
(section 4.1).  The decoder itself is missing from the sources. -/
def decodeAt (buf : List Nat) (off : Nat) :
    Except ViolationKind (Nat × Nat) :=
  if off + 4 ≤ buf.length then .ok (word32At buf off, 4)
  else .error .TruncatedInstruction

/-- Modelled from the spec: the driver decode loop from a byte offset.
It returns the decoded (offset, word) list and the decode violations; a
buffer ending in the middle of an instruction records
TrailingPartialInstruction at the offset of the dangling bytes.  The
driver is missing from the sources. -/
def decodeRegion (buf : List Nat) (off : Nat) :
    List (Nat × Nat) × List Violation :=
  if _h : off < buf.length then
    match decodeAt buf off with
    | .ok (w, _) =>
        ((off, w) :: (decodeRegion buf (off + 4)).1, (decodeRegion buf (off + 4)).2)
    | .error _ => ([], [viol off .TrailingPartialInstruction])
  else ([], [])
termination_by buf.length - off
decreasing_by omega

/-- Modelled from the spec: target parameters passed into the validator
entry point (bundle size and sandbox mask constant, section 6). -/
structure ValidatorConfig where
  bundleSize : Nat
  maskConst : Nat

/-- Modelled from the spec: the boolean verdict of a validation pass. -/
inductive Verdict where
  | Accept
  | Reject
deriving DecidableEq

/-- Modelled from the spec: result of one validation pass: verdict, the
ordered violation list, and the number of bytes consumed. -/
structure VResult where
  verdict : Verdict
  violations : List Violation
  consumed : Nat
deriving DecidableEq

/-- Modelled from the spec: the driver (section 4.5).  It decodes the
entire region from offset 0, classifies every decoded word (the
classifier, driven by the decision table, is passed in as a function),
runs the safety, bundle and masking checkers over the full instruction
list without stopping at violations, and accepts exactly when no
violation was recorded. -/
def validate (cfg : ValidatorConfig) (classify : Nat → Nat → Instr)
    (buf : List Nat) : VResult :=
  { verdict :=
      if (decodeRegion buf 0).2 ++
          safetyCheck ((decodeRegion buf 0).1.map (fun p => classify p.1 p.2)) ++
          bundleCheck cfg.bundleSize
            ((decodeRegion buf 0).1.map (fun p => classify p.1 p.2)) ++
          maskCheckRegion cfg.maskConst cfg.bundleSize
            ((decodeRegion buf 0).1.map (fun p => classify p.1 p.2)) = []
      then .Accept else .Reject
    violations :=
      (decodeRegion buf 0).2 ++
        safetyCheck ((decodeRegion buf 0).1.map (fun p => classify p.1 p.2)) ++
        bundleCheck cfg.bundleSize
          ((decodeRegion buf 0).1.map (fun p => classify p.1 p.2)) ++
        maskCheckRegion cfg.maskConst cfg.bundleSize
          ((decodeRegion buf 0).1.map (fun p => classify p.1 p.2))
    consumed := 4 * (decodeRegion buf 0).1.length }

/- Helper predicates for restricted uses. -/

/-- A use of register r in a restricted role of a form that masking can
sanction: a constant-offset memory base other than the exempt
stack-pointer register, a register post-index memory base, or an
indirect branch target; the instruction is itself not a masking
instruction. -/
def maskableUse (i : Instr) (r : Fin 16) : Prop :=
  i.maskOp = none ∧
    ((i.branch = none ∧
        (((∃ imm, i.mem = some (r, .immOff imm)) ∧ r ≠ spReg) ∨
          (∃ rm, i.mem = some (r, .regPost rm)))) ∨
      (i.mem = none ∧ i.branch = some r))

/-- A use of register r in a restricted role that is rejected whenever r
is Unmasked: any memory-base use except the policy-exempt
constant-offset use of the stack-pointer register, or an indirect branch
target. -/
def rejectableUse (i : Instr) (r : Fin 16) : Prop :=
  (i.branch = none ∧
      ∃ f, i.mem = some (r, f) ∧ ¬(r = spReg ∧ ∃ imm, f = .immOff imm)) ∨
    (i.mem = none ∧ i.branch = some r)

/- Basic state lemmas for the checker step. -/

theorem useMem_snd_ne (s : CState) (off : Nat) (b : Fin 16) (f : MemForm)
    (r : Fin 16) (h : b ≠ r) : (useMem s off b f).2 r = s r := by
  rcases f with imm | rm | rm <;> unfold useMem
  · by_cases hb : b = spReg
    · simp [hb]
    · simp only [hb, if_false]
      rcases hsb : s b with _ | _ <;>
        simp [setConf, (Ne.symm h)]
  · rcases hsb : s b with _ | _ <;>
      simp [setConf, (Ne.symm h)]
  · simp

theorem useMem_snd_unmasked (s : CState) (off : Nat) (b : Fin 16)
    (f : MemForm) (r : Fin 16) (h : s r = .Unmasked) :
    (useMem s off b f).2 r = .Unmasked := by
  by_cases hb : b = r
  · subst hb
    rcases f with imm | rm | rm <;> unfold useMem
    · by_cases hs : b = spReg
      · simp only [hs, if_pos] at h ⊢
        simpa using h
      · simp only [hs, if_false]
        rcases hsb : s b with _ | _
        · simpa using h
        · simp [setConf]
    · rcases hsb : s b with _ | _
      · simpa using h
      · simp [setConf]
    · simpa using h
  · rw [useMem_snd_ne s off b f r hb]; exact h

theorem useBranchTarget_snd_ne (s : CState) (off : Nat) (t r : Fin 16)
    (h : t ≠ r) : (useBranchTarget s off t).2 r = s r := by
  unfold useBranchTarget
  rcases hst : s t with _ | _ <;> simp [setConf, (Ne.symm h)]

theorem useBranchTarget_snd_unmasked (s : CState) (off : Nat) (t r : Fin 16)
    (h : s r = .Unmasked) : (useBranchTarget s off t).2 r = .Unmasked := by
  by_cases hb : t = r
  · subst hb
    unfold useBranchTarget
    rcases hst : s t with _ | _
    · simpa using h
    · simp [setConf]
  · rw [useBranchTarget_snd_ne s off t r hb]; exact h

theorem memUse_snd_unmasked (s : CState) (i : Instr) (r : Fin 16)
    (h : s r = .Unmasked) : (memUse s i).2 r = .Unmasked := by
  unfold memUse
  rcases hm : i.mem with _ | ⟨b, f⟩
  · simpa using h
  · simpa using useMem_snd_unmasked s i.offset b f r h

theorem branchUse_snd_unmasked (s : CState) (i : Instr) (r : Fin 16)
    (h : s r = .Unmasked) : (branchUse s i).2 r = .Unmasked := by
  unfold branchUse
  rcases hb : i.branch with _ | t
  · simpa using h
  · simpa using useBranchTarget_snd_unmasked s i.offset t r h

/-- A checker step leaves a register Unmasked unless the instruction is a
qualifying masking instruction on it. -/
theorem stepInstr_snd_unmasked (mc : Nat) (s : CState) (i : Instr)
    (r : Fin 16) (h : s r = .Unmasked) (hm : i.maskOp ≠ some (r, mc)) :
    (stepInstr mc s i).2 r = .Unmasked := by
  have h2 : (branchUse (memUse s i).2 i).2 r = .Unmasked :=
    branchUse_snd_unmasked _ _ _ (memUse_snd_unmasked _ _ _ h)
  by_cases hd : r ∈ i.defs <;> simp [stepInstr, applyWrites, hm, hd, h2]

/-- A qualifying masking instruction on r leaves r ConfinedPendingUse. -/
theorem stepInstr_snd_qualMask (mc : Nat) (s : CState) (i : Instr)
    (r : Fin 16) (h : i.maskOp = some (r, mc)) :
    (stepInstr mc s i).2 r = .ConfinedPendingUse := by
  simp [stepInstr, applyWrites, h]

/-- A checker step preserves ConfinedPendingUse on r when the instruction
neither writes r nor uses r in a restricted role. -/
theorem stepInstr_snd_confined (mc : Nat) (s : CState) (i : Instr)
    (r : Fin 16) (h : s r = .ConfinedPendingUse) (hd : r ∉ i.defs)
    (hmem : ∀ p, i.mem = some p → p.1 ≠ r) (hbr : i.branch ≠ some r) :
    (stepInstr mc s i).2 r = .ConfinedPendingUse := by
  have h1 : (memUse s i).2 r = s r := by
    unfold memUse
    rcases hm : i.mem with _ | ⟨b, f⟩
    · simp
    · simpa using useMem_snd_ne s i.offset b f r (hmem (b, f) hm)
  have h2 : (branchUse (memUse s i).2 i).2 r = s r := by
    unfold branchUse
    rcases hb : i.branch with _ | t
    · simpa using h1
    · have ht : t ≠ r := by intro he; exact hbr (he ▸ hb)
      rw [useBranchTarget_snd_ne _ _ _ _ ht]; exact h1
  by_cases hq : i.maskOp = some (r, mc)
  · simp [stepInstr, applyWrites, hq]
  · simp [stepInstr, applyWrites, hq, hd, h2, h]

/- Lemmas about bundle-local runs. -/

theorem runBundleFrom_append (mc : Nat) (s : CState) (xs ys : List Instr) :
    runBundleFrom mc s (xs ++ ys) =
      ((runBundleFrom mc s xs).1 ++
        (runBundleFrom mc (runBundleFrom mc s xs).2 ys).1,
       (runBundleFrom mc (runBundleFrom mc s xs).2 ys).2) := by
  induction xs generalizing s with
  | nil => simp [runBundleFrom]
  | cons i rest ih => simp [runBundleFrom, ih]

theorem runBundleFrom_snd_unmasked (mc : Nat) (s : CState)
    (l : List Instr) (r : Fin 16) (h : s r = .Unmasked)
    (hl : ∀ j ∈ l, j.maskOp ≠ some (r, mc)) :
    (runBundleFrom mc s l).2 r = .Unmasked := by
  induction l generalizing s with
  | nil => simpa [runBundleFrom] using h
  | cons i rest ih =>
      simp only [runBundleFrom]
      exact ih _ (stepInstr_snd_unmasked mc s i r h (hl i (by simp)))
        (fun j hj => hl j (by simp [hj]))

theorem runBundleFrom_snd_confined (mc : Nat) (s : CState)
    (l : List Instr) (r : Fin 16) (h : s r = .ConfinedPendingUse)
    (hd : ∀ j ∈ l, r ∉ j.defs)
    (hmem : ∀ j ∈ l, ∀ p, j.mem = some p → p.1 ≠ r)
    (hbr : ∀ j ∈ l, j.branch ≠ some r) :
    (runBundleFrom mc s l).2 r = .ConfinedPendingUse := by
  induction l generalizing s with
  | nil => simpa [runBundleFrom] using h
  | cons i rest ih =>
      simp only [runBundleFrom]
      exact ih _
        (stepInstr_snd_confined mc s i r h (hd i (by simp))
          (hmem i (by simp)) (hbr i (by simp)))
        (fun j hj => hd j (by simp [hj]))
        (fun j hj => hmem j (by simp [hj]))
        (fun j hj => hbr j (by simp [hj]))

/-- A restricted use of a ConfinedPendingUse register in a maskable form
is accepted and consumes the confinement. -/
theorem confined_use_step (mc : Nat) (s : CState) (i : Instr) (r : Fin 16)
    (hc : s r = .ConfinedPendingUse) (hu : maskableUse i r) :
    (stepInstr mc s i).1 = [] ∧ (stepInstr mc s i).2 r = .Unmasked := by
  obtain ⟨hmask, hcase⟩ := hu
  rcases hcase with ⟨hbr, hmem⟩ | ⟨hmem, hbr⟩
  · rcases hmem with ⟨⟨imm, hm⟩, hsp⟩ | ⟨rm, hm⟩
    · constructor
      · simp [stepInstr, memUse, hm, useMem, hsp, hc, branchUse, hbr]
      · by_cases hd : r ∈ i.defs <;>
          simp [stepInstr, memUse, hm, useMem, hsp, hc, branchUse, hbr,
            applyWrites, hmask, hd, setConf]
    · constructor
      · simp [stepInstr, memUse, hm, useMem, hc, branchUse, hbr]
      · by_cases hd : r ∈ i.defs <;>
          simp [stepInstr, memUse, hm, useMem, hc, branchUse, hbr,
            applyWrites, hmask, hd, setConf]
  · constructor
    · simp [stepInstr, memUse, hmem, branchUse, hbr, useBranchTarget, hc]
    · by_cases hd : r ∈ i.defs <;>
        simp [stepInstr, memUse, hmem, branchUse, hbr, useBranchTarget, hc,
          applyWrites, hmask, hd, setConf]

/-- A restricted use of an Unmasked register in any non-exempt form emits
exactly one violation, an unsafe memory reference or unsafe control
transfer at the instruction's offset. -/
theorem unmasked_use_step (mc : Nat) (s : CState) (i : Instr) (r : Fin 16)
    (hum : s r = .Unmasked) (hu : rejectableUse i r) :
    ∃ k, (stepInstr mc s i).1 = [viol i.offset k] ∧
      (k = .UnsafeMemoryReference ∨ k = .UnsafeControlTransfer) := by
  rcases hu with ⟨hbr, f, hm, hnot⟩ | ⟨hm, hbr⟩
  · refine ⟨.UnsafeMemoryReference, ?_, Or.inl rfl⟩
    rcases f with imm | rm | rm
    · have hrs : r ≠ spReg := fun hh => hnot ⟨hh, imm, rfl⟩
      simp [stepInstr, memUse, hm, useMem, hrs, hum, branchUse, hbr]
    · simp [stepInstr, memUse, hm, useMem, hum, branchUse, hbr]
    · simp [stepInstr, memUse, hm, useMem, branchUse, hbr]
  · refine ⟨.UnsafeControlTransfer, ?_, Or.inr rfl⟩
    simp [stepInstr, memUse, hm, branchUse, hbr, useBranchTarget, hum]

/-- Every use form that masking sanctions is also rejected when
unmasked. -/
theorem maskableUse_rejectable (i : Instr) (r : Fin 16)
    (h : maskableUse i r) : rejectableUse i r := by
  obtain ⟨hmask, hcase⟩ := h
  rcases hcase with ⟨hbr, hmem⟩ | ⟨hmem, hbr⟩
  · rcases hmem with ⟨⟨imm, hm⟩, hsp⟩ | ⟨rm, hm⟩
    · exact Or.inl ⟨hbr, _, hm, by rintro ⟨hh, -⟩; exact hsp hh⟩
    · exact Or.inl ⟨hbr, _, hm, by rintro ⟨-, imm2, he⟩; cases he⟩
  · exact Or.inr ⟨hmem, hbr⟩

/- Lemmas about the region walk and bundle boundaries. -/

/-- Bundle index of the last instruction of a list (c if empty). -/
def walkCur (bs c : Nat) : List Instr → Nat
  | [] => c
  | i :: rest => walkCur bs (i.offset / bs) rest

theorem walkCur_concat (bs c : Nat) (xs : List Instr) (xl : Instr) :
    walkCur bs c (xs ++ [xl]) = xl.offset / bs := by
  induction xs generalizing c with
  | nil => rfl
  | cons i rest ih => simpa [walkCur] using ih _

theorem walkCur_all (bs c k : Nat) (l : List Instr) (hne : l ≠ [])
    (h : ∀ i ∈ l, i.offset / bs = k) : walkCur bs c l = k := by
  induction l generalizing c with
  | nil => exact absurd rfl hne
  | cons i rest ih =>
      rcases rest with _ | ⟨j, rest2⟩
      · simpa [walkCur] using h i (by simp)
      · show walkCur bs (i.offset / bs) (j :: rest2) = k
        exact ih (i.offset / bs) (by simp) (fun x hx => h x (by simp [hx]))

theorem maskWalk_append (mc bs c : Nat) (s : CState) (xs ys : List Instr) :
    maskWalk mc bs c s (xs ++ ys) =
      ((maskWalk mc bs c s xs).1 ++
        (maskWalk mc bs (walkCur bs c xs) (maskWalk mc bs c s xs).2 ys).1,
       (maskWalk mc bs (walkCur bs c xs) (maskWalk mc bs c s xs).2 ys).2) := by
  induction xs generalizing c s with
  | nil => simp [maskWalk, walkCur]
  | cons i rest ih => simp [maskWalk, walkCur, ih]

/-- The walk of a list whose head lies in a different bundle than the
previous instruction does not depend on the incoming state or bundle
index: it restarts from the all-Unmasked state. -/
theorem maskWalk_reset (mc bs c c2 : Nat) (s s2 : CState) (i : Instr)
    (l : List Instr) (h1 : i.offset / bs ≠ c ∨ s = initState)
    (h2 : i.offset / bs ≠ c2 ∨ s2 = initState) :
    maskWalk mc bs c s (i :: l) = maskWalk mc bs c2 s2 (i :: l) := by
  have e1 : (if i.offset / bs = c then s else initState) = initState := by
    rcases h1 with h | h
    · simp [h]
    · by_cases hc : i.offset / bs = c <;> simp [hc, h]
  have e2 : (if i.offset / bs = c2 then s2 else initState) = initState := by
    rcases h2 with h | h
    · simp [h]
    · by_cases hc : i.offset / bs = c2 <;> simp [hc, h]
  simp only [maskWalk, e1, e2]

/-- Within a single bundle the region walk coincides with the bundle-local
checker run. -/
theorem maskWalk_sameBundle (mc bs c : Nat) (s : CState) (l : List Instr)
    (h : ∀ i ∈ l, i.offset / bs = c) :
    maskWalk mc bs c s l = runBundleFrom mc s l := by
  induction l generalizing c s with
  | nil => rfl
  | cons i rest ih =>
      have hi : i.offset / bs = c := h i (by simp)
      have hrest : ∀ j ∈ rest, j.offset / bs = c := fun j hj => h j (by simp [hj])
      have e : (if i.offset / bs = c then s else initState) = s := by
        rw [hi]; simp
      simp only [maskWalk, runBundleFrom, e, hi, eq_self_iff_true, if_true]
      rw [ih c _ hrest]

/- Lemmas about the decoder loop. -/

theorem decodeRegion_of_ge (buf : List Nat) (off : Nat)
    (h : buf.length ≤ off) : decodeRegion buf off = ([], []) := by
  unfold decodeRegion
  simp [Nat.not_lt.mpr h]

theorem decodeRegion_of_trailing (buf : List Nat) (off : Nat)
    (h1 : off < buf.length) (h2 : ¬ off + 4 ≤ buf.length) :
    decodeRegion buf off = ([], [viol off .TrailingPartialInstruction]) := by
  unfold decodeRegion
  simp [h1, decodeAt, h2]

theorem decodeRegion_of_ok (buf : List Nat) (off : Nat)
    (h2 : off + 4 ≤ buf.length) :
    decodeRegion buf off =
      ((off, word32At buf off) :: (decodeRegion buf (off + 4)).1,
       (decodeRegion buf (off + 4)).2) := by
  rw [decodeRegion.eq_def]
  have h1 : off < buf.length := by omega
  simp [h1, decodeAt, h2]

/-- The decode loop always consumes the whole buffer in four-byte steps:
it decodes exactly length divided by 4 instructions from the given
offset, and reports a dangling tail exactly when the remaining length is
not a multiple of four. -/
theorem decodeRegion_spec (buf : List Nat) : ∀ n off, buf.length - off = n →
    (decodeRegion buf off).1.length = n / 4 ∧
      ((decodeRegion buf off).2 = [] ↔ n % 4 = 0) ∧
      (n % 4 ≠ 0 → ∃ o,
        (decodeRegion buf off).2 = [viol o .TrailingPartialInstruction]) := by
  intro n
  induction n using Nat.strong_induction_on with
  | _ n ih =>
      intro off hn
      by_cases h1 : off < buf.length
      · by_cases h2 : off + 4 ≤ buf.length
        · have hrec := ih (buf.length - (off + 4)) (by omega) (off + 4) rfl
          rw [decodeRegion_of_ok buf off h2]
          refine ⟨?_, ?_, ?_⟩
          · simp only [List.length_cons, hrec.1]
            omega
          · rw [hrec.2.1]
            omega
          · intro hmod
            obtain ⟨o, ho⟩ := hrec.2.2 (by omega)
            exact ⟨o, by simpa using ho⟩
        · rw [decodeRegion_of_trailing buf off h1 h2]
          refine ⟨?_, ?_, ?_⟩
          · simp; omega
          · simp; omega
          · intro _; exact ⟨off, rfl⟩
      · rw [decodeRegion_of_ge buf off (by omega)]
        refine ⟨?_, ?_, ?_⟩
        · simp; omega
        · simp; omega
        · intro hmod; omega

/- Characterization of the bundle checker loop. -/

theorem bundleCheck_go (bs : Nat) (insts : List Instr) (acc : List Violation) :
    insts.foldl
      (fun acc i =>
        if i.offset % bs + i.length ≤ bs then acc
        else acc ++ [viol i.offset .BundleCrossing]) acc =
      acc ++ (insts.filter (fun i => decide (bs < i.offset % bs + i.length))).map
        (fun i => viol i.offset .BundleCrossing) := by
  induction insts generalizing acc with
  | nil => simp
  | cons i rest ih =>
      by_cases hc : i.offset % bs + i.length ≤ bs
      · have hd : ¬ bs < i.offset % bs + i.length := Nat.not_lt.mpr hc
        simp [List.foldl_cons, hc, ih, List.filter_cons, hd]
      · have hd : bs < i.offset % bs + i.length := Nat.lt_of_not_le hc
        simp [List.foldl_cons, hc, ih, List.filter_cons, hd]

/-- Claim C7: the bundle checker emits a BundleCrossing violation for an
instruction exactly when its byte span fails the inequality
offset mod bundle size plus length at most bundle size; instructions
satisfying the inequality produce no BundleCrossing violation.  The
emitted list is precisely the image, in order, of the failing
instructions. -/
theorem c7_bundle_crossing :
    ∀ (bs : Nat) (insts : List Instr),
      bundleCheck bs insts =
        (insts.filter (fun i => decide (bs < i.offset % bs + i.length))).map
          (fun i => viol i.offset .BundleCrossing) ∧
      ∀ v, v ∈ bundleCheck bs insts ↔
        ∃ i ∈ insts, bs < i.offset % bs + i.length ∧
          v = viol i.offset .BundleCrossing := by
  intro bs insts
  have hgo := bundleCheck_go bs insts []
  constructor
  · simpa [bundleCheck] using hgo
  · intro v
    rw [show bundleCheck bs insts = _ from by simpa [bundleCheck] using hgo]
    simp only [List.mem_map, List.mem_filter, decide_eq_true_eq]
    constructor
    · rintro ⟨i, ⟨hm, hlt⟩, rfl⟩
      exact ⟨i, hm, hlt, rfl⟩
    · rintro ⟨i, hm, hlt, rfl⟩
      exact ⟨i, ⟨hm, hlt⟩, rfl⟩

/-- Claim C5: the driver accepts exactly when the violation list is empty
and the buffer was fully and exactly consumed; any violation yields
Reject with the complete list of all checkers' findings; no violation
stops the pass early: the decoder processes one instruction per four
bytes of the whole buffer regardless of violations, and the final report
concatenates the complete output of every checker. -/
theorem c5_driver_verdict :
    ∀ (cfg : ValidatorConfig) (classify : Nat → Nat → Instr) (buf : List Nat),
      ((validate cfg classify buf).verdict = .Accept ↔
          ((validate cfg classify buf).violations = [] ∧
            (validate cfg classify buf).consumed = buf.length)) ∧
        ((validate cfg classify buf).verdict = .Reject ↔
          (validate cfg classify buf).violations ≠ []) ∧
        (validate cfg classify buf).violations =
          (decodeRegion buf 0).2 ++
            safetyCheck ((decodeRegion buf 0).1.map (fun p => classify p.1 p.2)) ++
            bundleCheck cfg.bundleSize
              ((decodeRegion buf 0).1.map (fun p => classify p.1 p.2)) ++
            maskCheckRegion cfg.maskConst cfg.bundleSize
              ((decodeRegion buf 0).1.map (fun p => classify p.1 p.2)) ∧
        (decodeRegion buf 0).1.length = buf.length / 4 := by
  intro cfg classify buf
  have hspec := decodeRegion_spec buf buf.length 0 (by omega)
  have hlen : (decodeRegion buf 0).1.length = buf.length / 4 := hspec.1
  refine ⟨?_, ?_, rfl, hlen⟩
  · constructor
    · intro hacc
      by_cases hv : (validate cfg classify buf).violations = []
      · refine ⟨hv, ?_⟩
        have hd2 : (decodeRegion buf 0).2 = [] := by
          have := hv
          simp only [validate] at this
          rcases List.append_eq_nil.mp
            (List.append_eq_nil.mp (List.append_eq_nil.mp this).1).1 with ⟨ha, _⟩
          exact ha
        have hmod : buf.length % 4 = 0 := (hspec.2.1).mp hd2
        have hdm := Nat.div_add_mod buf.length 4
        simp only [validate, hlen]
        omega
      · exfalso
        simp only [validate] at hacc hv
        rw [if_neg hv] at hacc
        cases hacc
    · rintro ⟨hv, -⟩
      simp only [validate] at hv ⊢
      rw [if_pos hv]
  · constructor
    · intro hrej hempty
      simp only [validate] at hrej hempty
      rw [if_pos hempty] at hrej
      cases hrej
    · intro hne
      simp only [validate] at hne ⊢
      rw [if_neg hne]

/-- Claim C8: a buffer ending in the middle of an instruction yields a
TrailingPartialInstruction violation and overall rejection; the decoder
fails with TruncatedInstruction whenever the four instruction bytes
would extend past the buffer end, and its result depends only on the
bytes up to that bound, so it never reads past the buffer end. -/
theorem c8_truncation_handling :
    (∀ (cfg : ValidatorConfig) (classify : Nat → Nat → Instr)
        (buf : List Nat), buf.length % 4 ≠ 0 →
        (∃ v ∈ (validate cfg classify buf).violations,
            v.kind = .TrailingPartialInstruction) ∧
          (validate cfg classify buf).verdict = .Reject) ∧
      (∀ (buf : List Nat) (off : Nat), buf.length < off + 4 →
        decodeAt buf off = .error .TruncatedInstruction) ∧
      (∀ (buf : List Nat) (off : Nat),
        decodeAt buf off = decodeAt (buf.take (off + 4)) off) := by
  refine ⟨?_, ?_, ?_⟩
  · intro cfg classify buf hmod
    have hspec := decodeRegion_spec buf buf.length 0 (by omega)
    obtain ⟨o, ho⟩ := hspec.2.2 hmod
    have hv : viol o .TrailingPartialInstruction ∈
        (validate cfg classify buf).violations := by
      simp only [validate]
      refine List.mem_append.mpr (Or.inl ?_)
      refine List.mem_append.mpr (Or.inl ?_)
      refine List.mem_append.mpr (Or.inl ?_)
      simp [ho]
    refine ⟨⟨viol o .TrailingPartialInstruction, hv, rfl⟩, ?_⟩
    have hne : (validate cfg classify buf).violations ≠ [] :=
      fun he => by simp [he] at hv
    simp only [validate] at hne ⊢
    rw [if_neg hne]
  · intro buf off h
    simp [decodeAt, Nat.not_le.mpr h]
  · intro buf off
    simp only [decodeAt, List.length_take]
    by_cases h : off + 4 ≤ buf.length
    · rw [if_pos h, if_pos (by omega)]
      have hw : word32At (buf.take (off + 4)) off = word32At buf off := by
        simp only [word32At]
        rw [List.take_drop, List.take_drop, List.take_take]
        simp
      rw [hw]
    · rw [if_neg h, if_neg (by omega)]

theorem walkCur_append (bs c : Nat) (xs ys : List Instr) :
    walkCur bs c (xs ++ ys) = walkCur bs (walkCur bs c xs) ys := by
  induction xs generalizing c with
  | nil => rfl
  | cons i rest ih => simpa [walkCur] using ih _

/-- A region made of a nonempty bundle-k block followed by a
bundle-(k+1) block is checked as the first block followed by a fresh
bundle-local run of the second block: the confinement state is reset at
the boundary. -/
theorem maskCheckRegion_two_bundles (mc bs k : Nat) (b1 b2 : List Instr)
    (hb1ne : b1 ≠ []) (hb1 : ∀ i ∈ b1, i.offset / bs = k)
    (hb2 : ∀ i ∈ b2, i.offset / bs = k + 1) :
    maskCheckRegion mc bs (b1 ++ b2) =
      maskCheckRegion mc bs b1 ++ (runBundleFrom mc initState b2).1 := by
  rcases b2 with _ | ⟨bh, bt⟩
  · simp [runBundleFrom]
  · have hcur : walkCur bs 0 b1 = k := walkCur_all bs 0 k b1 hb1ne hb1
    have hreset :
        maskWalk mc bs (walkCur bs 0 b1) (maskWalk mc bs 0 initState b1).2
            (bh :: bt) =
          maskWalk mc bs (k + 1) initState (bh :: bt) := by
      apply maskWalk_reset
      · left
        rw [hcur]
        have := hb2 bh (by simp)
        omega
      · right; rfl
    have hsame := maskWalk_sameBundle mc bs (k + 1) initState (bh :: bt) hb2
    show (maskWalk mc bs 0 initState (b1 ++ bh :: bt)).1 = _
    rw [maskWalk_append]
    show (maskWalk mc bs 0 initState b1).1 ++
        (maskWalk mc bs (walkCur bs 0 b1) (maskWalk mc bs 0 initState b1).2
          (bh :: bt)).1 = _
    rw [hreset, hsame]
    rfl

/- Claim C1. -/

/-- Claim C1 as stated: a qualifying masking instruction on r followed in
the same bundle, with no intervening write to r, by a restricted use of
r, makes the validator accept that use (emit no violation for it). -/
def c1ClaimStatement : Prop :=
  ∀ (mc : Nat) (pre mid : List Instr) (im iu : Instr) (r : Fin 16),
    im.maskOp = some (r, mc) →
    (∀ j ∈ mid, r ∉ j.defs) →
    ((∃ f, iu.mem = some (r, f)) ∨ iu.branch = some r) →
    (runBundleFrom mc initState (pre ++ im :: mid ++ [iu])).1 =
      (runBundleFrom mc initState (pre ++ im :: mid)).1

/-- Claim C1, as stated, is false on the code: in the last two lines of
bundle6 of test_stores.S, r0 is masked with the correct constant and
immediately used as the base of a register pre-indexed store with no
intervening write, yet the validator rejects that store; and in a
mask-use-use bundle the second plain store through the masked register
has no intervening write to it either, yet is rejected because the first
use consumed the confinement. -/
theorem c1_counterexample : ¬ c1ClaimStatement := by
  intro hcl
  have h := hcl MASK [] [] (bicI r0 MASK 104) (strPreRegI r0 r2 108) r0 rfl
    (by simp) (Or.inl ⟨.regPre r2, rfl⟩)
  exact absurd h (by decide)

/-- Claim C1 amended: a qualifying masking instruction on r followed in
the same bundle by a restricted use of r in a maskable form (constant
offset base other than sp, register post-index base, or indirect branch
target - a register pre-indexed base is never sanctioned, see C10), with
no intervening write to r and no intervening restricted use of r (an
earlier use would consume the confinement), is accepted: the use emits
no violation; it consumes the confinement, leaving r Unmasked, so any
further restricted use of r without an intervening re-masking emits
exactly one UnsafeMemoryReference or UnsafeControlTransfer violation. -/
theorem c1_mask_then_use (mc : Nat) (pre mid : List Instr) (im iu : Instr)
    (r : Fin 16)
    (hm : im.maskOp = some (r, mc))
    (hw : ∀ j ∈ mid, r ∉ j.defs)
    (hnu : ∀ j ∈ mid, (∀ p, j.mem = some p → p.1 ≠ r) ∧ j.branch ≠ some r)
    (hu : maskableUse iu r) :
    (runBundleFrom mc initState (pre ++ im :: mid ++ [iu])).1 =
        (runBundleFrom mc initState (pre ++ im :: mid)).1 ∧
      (runBundleFrom mc initState (pre ++ im :: mid ++ [iu])).2 r =
        .Unmasked ∧
      ∀ (mid2 : List Instr) (iu2 : Instr),
        (∀ j ∈ mid2, j.maskOp ≠ some (r, mc)) →
        maskableUse iu2 r →
        ∃ k, (runBundleFrom mc initState
                ((pre ++ im :: mid ++ [iu]) ++ mid2 ++ [iu2])).1 =
            (runBundleFrom mc initState
                ((pre ++ im :: mid ++ [iu]) ++ mid2)).1 ++
              [viol iu2.offset k] ∧
          (k = .UnsafeMemoryReference ∨ k = .UnsafeControlTransfer) := by
  have hassoc : pre ++ im :: mid ++ [iu] = (pre ++ im :: mid) ++ [iu] := by
    simp
  have hconf : (runBundleFrom mc initState (pre ++ im :: mid)).2 r =
      .ConfinedPendingUse := by
    rw [runBundleFrom_append]
    show (runBundleFrom mc (runBundleFrom mc initState pre).2 (im :: mid)).2 r
        = _
    simp only [runBundleFrom]
    exact runBundleFrom_snd_confined mc _ mid r
      (stepInstr_snd_qualMask mc _ im r hm) hw
      (fun j hj => (hnu j hj).1) (fun j hj => (hnu j hj).2)
  have hok := confined_use_step mc
    (runBundleFrom mc initState (pre ++ im :: mid)).2 iu r hconf hu
  have h1 : (runBundleFrom mc initState (pre ++ im :: mid ++ [iu])).1 =
      (runBundleFrom mc initState (pre ++ im :: mid)).1 := by
    rw [hassoc, runBundleFrom_append]
    show (runBundleFrom mc initState (pre ++ im :: mid)).1 ++
        (runBundleFrom mc _ [iu]).1 = _
    simp [runBundleFrom, hok.1]
  have h2 : (runBundleFrom mc initState (pre ++ im :: mid ++ [iu])).2 r =
      .Unmasked := by
    rw [hassoc, runBundleFrom_append]
    show (runBundleFrom mc (runBundleFrom mc initState (pre ++ im :: mid)).2
        [iu]).2 r = _
    simp [runBundleFrom, hok.2]
  refine ⟨h1, h2, ?_⟩
  intro mid2 iu2 hnom hu2
  have hs2 : (runBundleFrom mc initState
      ((pre ++ im :: mid ++ [iu]) ++ mid2)).2 r = .Unmasked := by
    rw [runBundleFrom_append]
    exact runBundleFrom_snd_unmasked mc _ mid2 r h2 hnom
  obtain ⟨k, hk, hkor⟩ := unmasked_use_step mc _ iu2 r hs2
    (maskableUse_rejectable iu2 r hu2)
  refine ⟨k, ?_, hkor⟩
  rw [runBundleFrom_append]
  simp only [runBundleFrom, List.append_nil]
  exact congrArg
    (fun z =>
      (runBundleFrom mc initState (pre ++ im :: mid ++ [iu] ++ mid2)).1 ++ z)
    hk

/-- Witness for the amended claim C1, on the mask-use pattern of bundle0
of test_stores.S followed by an unmasked re-use: the store at offset 4
is accepted, consumes the confinement of r1, and the identical store at
offset 8 is then rejected. -/
theorem c1_mask_then_use_witness :
    (runBundleFrom MASK initState [bicI r1 MASK 0, strImmI r1 0 4]).1 =
        (runBundleFrom MASK initState [bicI r1 MASK 0]).1 ∧
      (runBundleFrom MASK initState [bicI r1 MASK 0, strImmI r1 0 4]).2 r1 =
        .Unmasked ∧
      ∃ k, (runBundleFrom MASK initState
              [bicI r1 MASK 0, strImmI r1 0 4, strImmI r1 0 8]).1 =
          (runBundleFrom MASK initState [bicI r1 MASK 0, strImmI r1 0 4]).1 ++
            [viol 8 k] ∧
        (k = .UnsafeMemoryReference ∨ k = .UnsafeControlTransfer) := by
  have h := c1_mask_then_use MASK [] [] (bicI r1 MASK 0) (strImmI r1 0 4) r1
    rfl (by simp) (by simp)
    ⟨rfl, Or.inl ⟨rfl, Or.inl ⟨⟨0, rfl⟩, by decide⟩⟩⟩
  exact ⟨h.1, h.2.1, h.2.2 [] (strImmI r1 0 8) (by simp)
    ⟨rfl, Or.inl ⟨rfl, Or.inl ⟨⟨0, rfl⟩, by decide⟩⟩⟩⟩

/- Claim C2. -/

/-- Claim C2 (second half) as stated: whenever a masking instruction on r
occurs in one bundle and the only restricted use of r occurs in the next
bundle, validation emits a violation for that use. -/
def c2ClaimStatement : Prop :=
  ∀ (mc bs k : Nat) (b1 p q : List Instr) (iu : Instr) (r : Fin 16),
    (∀ i ∈ b1, i.offset / bs = k) →
    (∀ i ∈ p ++ iu :: q, i.offset / bs = k + 1) →
    (∃ im ∈ b1, im.maskOp = some (r, mc)) →
    ((∃ f, iu.mem = some (r, f)) ∨ iu.branch = some r) →
    (∀ j ∈ b1 ++ p ++ q, (∀ f, j.mem ≠ some (r, f)) ∧ j.branch ≠ some r) →
    ∃ v ∈ maskCheckRegion mc bs (b1 ++ p ++ iu :: q),
      v.offset = iu.offset ∧
        (v.kind = .UnsafeMemoryReference ∨ v.kind = .UnsafeControlTransfer)

/-- Claim C2, as stated, is false on the code: if the next bundle itself
re-masks r before the use (here bic r1, r1, MASK at offset 16 followed
by the store at offset 20, after a mask of r1 in bundle 0), the use is
accepted and validation emits no violation at all, although the mask-in-
one-bundle, only-use-in-the-next pattern of the claim is satisfied. -/
theorem c2_counterexample : ¬ c2ClaimStatement := by
  intro hcl
  have h := hcl MASK 16 0 [bicI r1 MASK 0] [bicI r1 MASK 16] []
    (strImmI r1 0 20) r1 (by decide) (by decide)
    ⟨bicI r1 MASK 0, by simp, rfl⟩ (Or.inl ⟨.immOff 0, rfl⟩)
    (by
      intro j hj
      fin_cases hj <;>
        exact ⟨(fun f hf => nomatch hf), (fun hb => nomatch hb)⟩)
  obtain ⟨v, hv, -⟩ := h
  have he : maskCheckRegion MASK 16
      ([bicI r1 MASK 0] ++ [bicI r1 MASK 16] ++ strImmI r1 0 20 :: []) =
      [] := by decide
  rw [he] at hv
  cases hv

/-- Claim C2 amended: confinement state is reset at every bundle
boundary, so a region splits at any boundary into independent checks
(first conjunct: the walk of a block starting in a different bundle than
the instruction before it never depends on the earlier state); and a
masking instruction in one bundle followed by a restricted use of r in
the next bundle with no qualifying re-masking of r before the use in
that next bundle yields exactly one UnsafeMemoryReference or
UnsafeControlTransfer violation for that use (second conjunct). -/
theorem c2_cross_bundle :
    (∀ (mc bs : Nat) (xs : List Instr) (xl yh : Instr) (ys : List Instr),
        xl.offset / bs ≠ yh.offset / bs →
        maskCheckRegion mc bs ((xs ++ [xl]) ++ yh :: ys) =
          maskCheckRegion mc bs (xs ++ [xl]) ++
            maskCheckRegion mc bs (yh :: ys)) ∧
      ∀ (mc bs k : Nat) (b1 p q : List Instr) (iu : Instr) (r : Fin 16),
        (∀ i ∈ b1, i.offset / bs = k) →
        (∀ i ∈ p ++ iu :: q, i.offset / bs = k + 1) →
        (∃ im ∈ b1, im.maskOp = some (r, mc)) →
        (∀ j ∈ p, j.maskOp ≠ some (r, mc)) →
        rejectableUse iu r →
        ∃ kk rest, maskCheckRegion mc bs (b1 ++ p ++ iu :: q) =
            maskCheckRegion mc bs (b1 ++ p) ++ viol iu.offset kk :: rest ∧
          (kk = .UnsafeMemoryReference ∨ kk = .UnsafeControlTransfer) := by
  constructor
  · intro mc bs xs xl yh ys hne
    unfold maskCheckRegion
    rw [maskWalk_append]
    show (maskWalk mc bs 0 initState (xs ++ [xl])).1 ++
        (maskWalk mc bs (walkCur bs 0 (xs ++ [xl]))
          (maskWalk mc bs 0 initState (xs ++ [xl])).2 (yh :: ys)).1 = _
    rw [maskWalk_reset mc bs (walkCur bs 0 (xs ++ [xl])) 0
      (maskWalk mc bs 0 initState (xs ++ [xl])).2 initState yh ys
      (Or.inl (by rw [walkCur_concat]; exact fun hh => hne hh.symm))
      (Or.inr rfl)]
  · intro mc bs k b1 p q iu r hb1 hb2 hmask hpm huse
    obtain ⟨im, him, -⟩ := hmask
    have hb1ne : b1 ≠ [] := by
      intro he; rw [he] at him; cases him
    have hp : ∀ i ∈ p, i.offset / bs = k + 1 := fun i hi =>
      hb2 i (by simp [hi])
    have hfull : maskCheckRegion mc bs (b1 ++ (p ++ iu :: q)) =
        maskCheckRegion mc bs b1 ++
          (runBundleFrom mc initState (p ++ iu :: q)).1 :=
      maskCheckRegion_two_bundles mc bs k b1 (p ++ iu :: q) hb1ne hb1 hb2
    have hpart : maskCheckRegion mc bs (b1 ++ p) =
        maskCheckRegion mc bs b1 ++ (runBundleFrom mc initState p).1 :=
      maskCheckRegion_two_bundles mc bs k b1 p hb1ne hb1 hp
    have hsr : (runBundleFrom mc initState p).2 r = .Unmasked :=
      runBundleFrom_snd_unmasked mc initState p r rfl hpm
    obtain ⟨kk, hkk, hkor⟩ :=
      unmasked_use_step mc (runBundleFrom mc initState p).2 iu r hsr huse
    refine ⟨kk,
      (runBundleFrom mc
        (stepInstr mc (runBundleFrom mc initState p).2 iu).2 q).1, ?_, hkor⟩
    have hsplit : (runBundleFrom mc initState (p ++ iu :: q)).1 =
        (runBundleFrom mc initState p).1 ++
          (viol iu.offset kk ::
            (runBundleFrom mc
              (stepInstr mc (runBundleFrom mc initState p).2 iu).2 q).1) := by
      rw [runBundleFrom_append]
      show (runBundleFrom mc initState p).1 ++
          (runBundleFrom mc (runBundleFrom mc initState p).2 (iu :: q)).1 = _
      simp only [runBundleFrom, hkk]
      rfl
    rw [show b1 ++ p ++ iu :: q = b1 ++ (p ++ iu :: q) from by simp, hfull,
      hsplit, hpart]
    simp

/-- Witness for the amended claim C2, on the bundle2 to bundle3 scenario
of test_stores.S: splitting the region at the bundle boundary after the
mask (first part), and the store in the following bundle at offset 16
being flagged with exactly one unsafe-memory-reference violation
(second part). -/
theorem c2_cross_bundle_witness :
    maskCheckRegion MASK 16
        (([nopI 0] ++ [bicI r1 MASK 12]) ++ strImmI r1 0 16 :: []) =
      maskCheckRegion MASK 16 ([nopI 0] ++ [bicI r1 MASK 12]) ++
        maskCheckRegion MASK 16 (strImmI r1 0 16 :: []) ∧
    ∃ kk rest, maskCheckRegion MASK 16
          ([bicI r1 MASK 0] ++ [] ++ strImmI r1 0 16 :: []) =
        maskCheckRegion MASK 16 ([bicI r1 MASK 0] ++ []) ++
          viol 16 kk :: rest ∧
        (kk = .UnsafeMemoryReference ∨ kk = .UnsafeControlTransfer) := by
  constructor
  · exact c2_cross_bundle.1 MASK 16 [nopI 0] (bicI r1 MASK 12)
      (strImmI r1 0 16) [] (by decide)
  · exact c2_cross_bundle.2 MASK 16 0 [bicI r1 MASK 0] [] []
      (strImmI r1 0 16) r1 (by decide) (by decide)
      ⟨bicI r1 MASK 0, by simp, rfl⟩ (by simp)
      (Or.inl ⟨rfl, .immOff 0, rfl, by rintro ⟨hh, -⟩; exact absurd hh (by decide)⟩)

/- Claim C3. -/

/-- Claim C3: a bit-clear instruction whose immediate constant is not the
sandbox mask constant (for example BIC with 0) does not move its written
register to ConfinedPendingUse: the register is left Unmasked, the whole
checker step is identical to that of the same instruction with no
masking flag at all, and a subsequent restricted use of that register in
the same bundle with no intervening qualifying mask is rejected with a
violation, exactly as if no mask had occurred. -/
theorem c3_wrong_mask :
    ∀ (mc c : Nat) (s : CState) (i : Instr) (r : Fin 16),
      i.maskOp = some (r, c) → c ≠ mc →
      stepInstr mc s i = stepInstr mc s { i with maskOp := none } ∧
        (r ∈ i.defs → (stepInstr mc s i).2 r = .Unmasked) ∧
        ∀ (mid : List Instr) (iu : Instr), r ∈ i.defs →
          (∀ j ∈ mid, j.maskOp ≠ some (r, mc)) → rejectableUse iu r →
          ∃ k, (runBundleFrom mc (stepInstr mc s i).2 (mid ++ [iu])).1 =
              (runBundleFrom mc (stepInstr mc s i).2 mid).1 ++
                [viol iu.offset k] ∧
            (k = .UnsafeMemoryReference ∨ k = .UnsafeControlTransfer) := by
  intro mc c s i r hmo hc
  have hne : ∀ r2 : Fin 16, i.maskOp ≠ some (r2, mc) := by
    intro r2 he
    rw [hmo] at he
    injection he with he2
    exact hc (congrArg Prod.snd he2)
  have hstep : stepInstr mc s i = stepInstr mc s { i with maskOp := none } := by
    have happ : applyWrites mc (branchUse (memUse s i).2 i).2 i =
        applyWrites mc (branchUse (memUse s i).2 i).2
          { i with maskOp := none } := by
      funext r2
      have hcond2 : ({ i with maskOp := none } : Instr).maskOp ≠
          some (r2, mc) := by intro he; cases he
      simp only [applyWrites, if_neg (hne r2), if_neg hcond2]
    simp only [stepInstr]
    rw [happ]
    rfl
  have hun : r ∈ i.defs → (stepInstr mc s i).2 r = .Unmasked := by
    intro hdefs
    simp [stepInstr, applyWrites, if_neg (hne r), hdefs]
  refine ⟨hstep, hun, ?_⟩
  intro mid iu hdefs hnom huse
  have hmidU : (runBundleFrom mc (stepInstr mc s i).2 mid).2 r = .Unmasked :=
    runBundleFrom_snd_unmasked mc _ mid r (hun hdefs) hnom
  obtain ⟨k, hk, hkor⟩ := unmasked_use_step mc _ iu r hmidU huse
  refine ⟨k, ?_, hkor⟩
  rw [runBundleFrom_append]
  simp only [runBundleFrom, List.append_nil]
  exact congrArg
    (fun z => (runBundleFrom mc (stepInstr mc s i).2 mid).1 ++ z) hk

/-- Witness for claim C3, on the wrong-mask pair of bundle1 of
test_stores.S: bic r1, r3, 0 at offset 24 behaves exactly like a
non-masking write to r1, leaves r1 Unmasked, and the store through r1 at
offset 28 is rejected with an unsafe-memory-reference violation. -/
theorem c3_wrong_mask_witness :
    stepInstr MASK initState (bicI r1 0 24) =
        stepInstr MASK initState { bicI r1 0 24 with maskOp := none } ∧
      (stepInstr MASK initState (bicI r1 0 24)).2 r1 = .Unmasked ∧
      ∃ k, (runBundleFrom MASK (stepInstr MASK initState (bicI r1 0 24)).2
              [strImmI r1 0 28]).1 =
          (runBundleFrom MASK (stepInstr MASK initState (bicI r1 0 24)).2
              []).1 ++ [viol 28 k] ∧
        (k = .UnsafeMemoryReference ∨ k = .UnsafeControlTransfer) := by
  have h := c3_wrong_mask MASK 0 initState (bicI r1 0 24) r1 rfl (by decide)
  exact ⟨h.1, h.2.1 (by decide),
    h.2.2 [] (strImmI r1 0 28) (by decide) (by simp)
      (Or.inl ⟨rfl, .immOff 0, rfl,
        by rintro ⟨hh, -⟩; exact absurd hh (by decide)⟩)⟩

/- Claim C4. -/

/-- Claim C4 (rejection half) as stated: in a bundle where register A is
validly masked and register B is never masked, any restricted use of B
is rejected with a violation. -/
def c4ClaimStatement : Prop :=
  ∀ (mc : Nat) (pre post : List Instr) (iu : Instr) (A B : Fin 16),
    (∃ im ∈ pre, im.maskOp = some (A, mc)) →
    (∀ j ∈ pre ++ iu :: post, j.maskOp ≠ some (B, mc)) →
    ((∃ f, iu.mem = some (B, f)) ∨ iu.branch = some B) →
    ∃ v ∈ (runBundleFrom mc initState (pre ++ iu :: post)).1,
      v.offset = iu.offset ∧
        (v.kind = .UnsafeMemoryReference ∨ v.kind = .UnsafeControlTransfer)

/-- Claim C4, as stated, is false on the code: with r1 validly masked and
the stack-pointer register never masked, the post-indexed store
str r1, [sp], 1024 uses sp as a memory base (a restricted role), yet is
accepted with no violation, because sp with a constant offset is exempt
from masking by policy (bundle6 of test_stores.S). -/
theorem c4_counterexample : ¬ c4ClaimStatement := by
  intro hcl
  have h := hcl MASK [bicI r1 MASK 0] [] (strPostImmI spReg 1024 4) r1 spReg
    ⟨bicI r1 MASK 0, by simp, rfl⟩ (by decide)
    (Or.inl ⟨.immOff 1024, rfl⟩)
  obtain ⟨v, hv, -⟩ := h
  have he : (runBundleFrom MASK initState
      ([bicI r1 MASK 0] ++ strPostImmI spReg 1024 4 :: [])).1 = [] := by
    decide
  rw [he] at hv
  cases hv

/-- Claim C4 amended: every instruction that writes r and is not a
qualifying masking instruction on r sets r to Unmasked (first conjunct);
no instruction other than a qualifying mask of r can make r
ConfinedPendingUse, so masking register A never confines a different
register B (second conjunct); and a restricted use of an unmasked
register B is rejected, unless B is the policy-exempt stack-pointer
register used with a constant offset (third conjunct). -/
theorem c4_write_unmask :
    (∀ (mc : Nat) (s : CState) (i : Instr) (r : Fin 16),
        r ∈ i.defs → i.maskOp ≠ some (r, mc) →
        (stepInstr mc s i).2 r = .Unmasked) ∧
      (∀ (mc : Nat) (s : CState) (i : Instr) (r : Fin 16),
        i.maskOp ≠ some (r, mc) →
        (stepInstr mc s i).2 r = .ConfinedPendingUse →
        s r = .ConfinedPendingUse) ∧
      ∀ (mc : Nat) (pre post : List Instr) (iu : Instr) (B : Fin 16),
        (∀ j ∈ pre, j.maskOp ≠ some (B, mc)) →
        rejectableUse iu B →
        ∃ k rest, (runBundleFrom mc initState (pre ++ iu :: post)).1 =
            (runBundleFrom mc initState pre).1 ++ viol iu.offset k :: rest ∧
          (k = .UnsafeMemoryReference ∨ k = .UnsafeControlTransfer) := by
  refine ⟨?_, ?_, ?_⟩
  · intro mc s i r hdefs hne
    simp [stepInstr, applyWrites, if_neg hne, hdefs]
  · intro mc s i r hne hres
    rcases hsr : s r with _ | _
    · exfalso
      have hu := stepInstr_snd_unmasked mc s i r hsr hne
      rw [hres] at hu
      cases hu
    · rfl
  · intro mc pre post iu B hnom huse
    have hs : (runBundleFrom mc initState pre).2 B = .Unmasked :=
      runBundleFrom_snd_unmasked mc initState pre B rfl hnom
    obtain ⟨k, hk, hkor⟩ := unmasked_use_step mc _ iu B hs huse
    refine ⟨k, (runBundleFrom mc
      (stepInstr mc (runBundleFrom mc initState pre).2 iu).2 post).1,
      ?_, hkor⟩
    rw [runBundleFrom_append]
    simp only [runBundleFrom, hk, List.singleton_append]

/-- Witness for the amended claim C4: the plain move of bundle1 of
test_stores.S unmasks r1; a non-masking step cannot create confinement;
and with r1 masked but r2 never masked, the store through r2 is rejected
at its offset. -/
theorem c4_write_unmask_witness :
    (stepInstr MASK initState (movI r1 16)).2 r1 = .Unmasked ∧
      setConf initState r1 .ConfinedPendingUse r1 = .ConfinedPendingUse ∧
      ∃ k rest, (runBundleFrom MASK initState
            [bicI r1 MASK 0, strImmI r2 0 4]).1 =
          (runBundleFrom MASK initState [bicI r1 MASK 0]).1 ++
            viol 4 k :: rest ∧
        (k = .UnsafeMemoryReference ∨ k = .UnsafeControlTransfer) :=
  ⟨c4_write_unmask.1 MASK initState (movI r1 16) r1 (by decide) (by decide),
   c4_write_unmask.2.1 MASK (setConf initState r1 .ConfinedPendingUse)
     (nopI 0) r1 (by decide) (by decide),
   c4_write_unmask.2.2 MASK [bicI r1 MASK 0] [] (strImmI r2 0 4) r2
     (by decide)
     (Or.inl ⟨rfl, .immOff 0, rfl,
       by rintro ⟨hh, -⟩; exact absurd hh (by decide)⟩)⟩

/- Claim C6. -/

/-- Claim C6: a restricted use of the always-confined stack-pointer
register with a constant offset (such as the post-indexed store with
immediate 1024 in bundle6 of test_stores.S) is accepted in any state
without any masking instruction, while the same use post-indexed by a
register is rejected when sp is unmasked. -/
theorem c6_sp_exempt :
    (∀ (mc : Nat) (s : CState) (i : Instr) (imm : Nat),
        i.mem = some (spReg, .immOff imm) → i.branch = none →
        (stepInstr mc s i).1 = []) ∧
      ∀ (mc : Nat) (s : CState) (i : Instr) (rm : Fin 16),
        i.mem = some (spReg, .regPost rm) → i.branch = none →
        s spReg = .Unmasked →
        (stepInstr mc s i).1 = [viol i.offset .UnsafeMemoryReference] := by
  constructor
  · intro mc s i imm hm hb
    simp [stepInstr, memUse, hm, useMem, branchUse, hb]
  · intro mc s i rm hm hb hs
    simp [stepInstr, memUse, hm, useMem, hs, branchUse, hb]

/-- Witness for claim C6, the two sp stores of bundle6 of test_stores.S:
the constant post-index at offset 96 is accepted from the all-Unmasked
state, the register post-index at offset 100 is rejected. -/
theorem c6_sp_exempt_witness :
    (stepInstr MASK initState (strPostImmI spReg 1024 96)).1 = [] ∧
      (stepInstr MASK initState (strPostRegI spReg r2 100)).1 =
        [viol 100 .UnsafeMemoryReference] :=
  ⟨c6_sp_exempt.1 MASK initState (strPostImmI spReg 1024 96) 1024 rfl rfl,
   c6_sp_exempt.2 MASK initState (strPostRegI spReg r2 100) r2 rfl rfl rfl⟩

/- Claim C10. -/

/-- Claim C10: a store whose effective address combines a base register
with a register offset in pre-indexed form is rejected in every checker
state, even when the base is ConfinedPendingUse from an earlier
qualifying mask with no intervening redefinition; confinement of the
base suffices exactly for the forms without a pre-indexed register
offset: constant-offset (plain) bases and register post-index bases. -/
theorem c10_preindexed_reg_offset :
    (∀ (mc : Nat) (s : CState) (i : Instr) (b rm : Fin 16),
        i.mem = some (b, .regPre rm) → i.branch = none →
        (stepInstr mc s i).1 = [viol i.offset .UnsafeMemoryReference]) ∧
      (∀ (mc : Nat) (s : CState) (i : Instr) (b : Fin 16) (imm : Nat),
        s b = .ConfinedPendingUse → i.mem = some (b, .immOff imm) →
        i.branch = none → (stepInstr mc s i).1 = []) ∧
      ∀ (mc : Nat) (s : CState) (i : Instr) (b rm : Fin 16),
        s b = .ConfinedPendingUse → i.mem = some (b, .regPost rm) →
        i.branch = none → (stepInstr mc s i).1 = [] := by
  refine ⟨?_, ?_, ?_⟩
  · intro mc s i b rm hm hb
    simp [stepInstr, memUse, hm, useMem, branchUse, hb]
  · intro mc s i b imm hs hm hb
    by_cases hsp : b = spReg <;>
      simp [stepInstr, memUse, hm, useMem, hsp, hs, branchUse, hb]
  · intro mc s i b rm hs hm hb
    simp [stepInstr, memUse, hm, useMem, hs, branchUse, hb]

/-- Witness for claim C10, on the stores of bundle5 and bundle6 of
test_stores.S with r0 confined: the register pre-indexed store at offset
108 is rejected even though r0 is confined, while a plain store and the
register post-indexed store at offset 84 are accepted. -/
theorem c10_preindexed_witness :
    (stepInstr MASK (setConf initState r0 .ConfinedPendingUse)
        (strPreRegI r0 r2 108)).1 = [viol 108 .UnsafeMemoryReference] ∧
      (stepInstr MASK (setConf initState r0 .ConfinedPendingUse)
          (strImmI r0 0 4)).1 = [] ∧
      (stepInstr MASK (setConf initState r0 .ConfinedPendingUse)
          (strPostRegI r0 r2 84)).1 = [] :=
  ⟨c10_preindexed_reg_offset.1 MASK (setConf initState r0 .ConfinedPendingUse)
     (strPreRegI r0 r2 108) r0 r2 rfl rfl,
   c10_preindexed_reg_offset.2.1 MASK
     (setConf initState r0 .ConfinedPendingUse) (strImmI r0 0 4) r0 0
     (by decide) rfl rfl,
   c10_preindexed_reg_offset.2.2 MASK
     (setConf initState r0 .ConfinedPendingUse) (strPostRegI r0 r2 84) r0 r2
     (by decide) rfl rfl⟩

/-- Witness for claim C8: a five-byte buffer ends mid-instruction and is
rejected with a TrailingPartialInstruction violation; a three-byte
buffer cannot supply a full instruction at offset 0; and the decode at
offset 4 only consults the first eight bytes. -/
theorem c8_truncation_witness :
    ((∃ v ∈ (validate ⟨16, MASK⟩ (fun o _ => nopI o)
          [0, 0, 0, 0, 0]).violations,
        v.kind = .TrailingPartialInstruction) ∧
      (validate ⟨16, MASK⟩ (fun o _ => nopI o) [0, 0, 0, 0, 0]).verdict =
        .Reject) ∧
      decodeAt [0, 0, 0] 0 = .error .TruncatedInstruction ∧
      decodeAt [0, 0, 0, 0, 0] 4 = decodeAt (List.take 8 [0, 0, 0, 0, 0]) 4 :=
  ⟨c8_truncation_handling.1 ⟨16, MASK⟩ (fun o _ => nopI o) [0, 0, 0, 0, 0]
     (by decide),
   c8_truncation_handling.2.1 [0, 0, 0] 0 (by decide),
   c8_truncation_handling.2.2 [0, 0, 0, 0, 0] 4⟩
